import Mathlib

/-!
Verification of the core of `data-structure-saver` (`src/app/page.tsx`):
the JSON value model, `trimStructure`, `normalizeTypes`, `mergeSchemas`,
`inferSchema`, and `generateSchema`, embedded shallowly in Lean.

JSON numbers are modelled as rationals; `Number.isInteger x` becomes
`x.den = 1` (the value has no fractional part).  Objects are ordered
key/value lists (JS object insertion order).  The optional fields of a
TypeScript `JsonSchema` literal become `Option` fields.
-/

/-- The `JsonValue` union type of the source: string, number, boolean,
null, array, or object (an ordered string-keyed mapping). -/
inductive JsonValue : Type where
  | str : String → JsonValue
  | num : ℚ → JsonValue
  | bool : Bool → JsonValue
  | null : JsonValue
  | arr : List JsonValue → JsonValue
  | obj : List (String × JsonValue) → JsonValue

/-- The `type` field of a `JsonSchema`: either a single tag string or an
array of tag strings (`type?: string | string[]`). -/
inductive SchemaType : Type where
  | single : String → SchemaType
  | multi : List String → SchemaType
deriving DecidableEq

/-- The `JsonSchema` record of the source:
`{$schema?, type?, properties?, items?, required?}`.  `properties` is an
ordered mapping from property name to nested schema. -/
inductive JsonSchema : Type where
  | mk : Option String → Option SchemaType →
         Option (List (String × JsonSchema)) → Option JsonSchema →
         Option (List String) → JsonSchema

namespace JsonSchema

/-- The `$schema` field. -/
def uri : JsonSchema → Option String
  | mk u _ _ _ _ => u

/-- The `type` field. -/
def type : JsonSchema → Option SchemaType
  | mk _ t _ _ _ => t

/-- The `properties` field. -/
def properties : JsonSchema → Option (List (String × JsonSchema))
  | mk _ _ p _ _ => p

/-- The `items` field. -/
def items : JsonSchema → Option JsonSchema
  | mk _ _ _ i _ => i

/-- The `required` field. -/
def required : JsonSchema → Option (List String)
  | mk _ _ _ _ r => r

/-- The empty schema literal `{}`. -/
def empty : JsonSchema := mk none none none none none

end JsonSchema

/-- First-occurrence deduplication, the iteration order of a JavaScript
`Set` built from a list (`Array.from(new Set(l))`). -/
def dedupFirst : List String → List String
  | [] => []
  | x :: xs => x :: (dedupFirst xs).filter (fun y => y ≠ x)

/-- `Record` lookup `props[key] ?? null` on an ordered property list. -/
def lookupProp : List (String × JsonSchema) → String → Option JsonSchema
  | [], _ => none
  | (k, v) :: rest, key => if k = key then some v else lookupProp rest key

/-- `normalizeTypes`: flatten an optional schema's `type` field to a list
of tags.  A JS falsy `type` (absent, or the empty string) yields `[]`. -/
def normalizeTypes : Option JsonSchema → List String
  | none => []
  | some s =>
    match s.type with
    | none => []
    | some (SchemaType.single t) => if t = "" then [] else [t]
    | some (SchemaType.multi ts) => ts

theorem sizeOf_lookupProp (ps : List (String × JsonSchema)) (k : String) :
    sizeOf (lookupProp ps k) ≤ sizeOf ps := by
  induction ps with
  | nil => simp [lookupProp]
  | cons hd tl ih =>
    obtain ⟨k', v⟩ := hd
    by_cases h : k' = k
    · simp only [lookupProp, if_pos h, Option.some.sizeOf_spec,
        List.cons.sizeOf_spec, Prod.mk.sizeOf_spec]
      omega
    · simp only [lookupProp, if_neg h, List.cons.sizeOf_spec,
        Prod.mk.sizeOf_spec]
      omega

theorem sizeOf_properties_lt (s : JsonSchema) :
    sizeOf (s.properties.getD []) < sizeOf s := by
  obtain ⟨u, t, p, i, r⟩ := s
  simp only [JsonSchema.properties]
  cases p with
  | none =>
    simp only [Option.getD, JsonSchema.mk.sizeOf_spec,
      Option.none.sizeOf_spec, List.nil.sizeOf_spec]
    omega
  | some ps =>
    simp only [Option.getD, JsonSchema.mk.sizeOf_spec,
      Option.some.sizeOf_spec]
    omega

theorem sizeOf_items_lt (s : JsonSchema) : sizeOf s.items < sizeOf s := by
  obtain ⟨u, t, p, i, r⟩ := s
  simp only [JsonSchema.items, JsonSchema.mk.sizeOf_spec]
  omega

/-- How `mergeSchemas` stores the unioned tag list: unset when empty, a
scalar tag when a singleton (`types.length === 1 ? types[0] : types`),
else the list. -/
def storeTypes : List String → Option SchemaType
  | [] => none
  | [t] => some (SchemaType.single t)
  | ts => some (SchemaType.multi ts)

theorem lex_le_aux {a b c d n : Nat} (h1 : a ≤ c) (h2 : b ≤ d) (hn : 0 < n) :
    Prod.Lex (· < ·) (· < ·) (a + b, 0) (c + d, n) := by
  rcases Nat.lt_or_ge (a + b) (c + d) with h | h
  · exact Prod.Lex.left _ _ h
  · have heq : a + b = c + d := by omega
    rw [heq]
    exact Prod.Lex.right _ hn

mutual

/-- `mergeSchemas(left, right)` from the source: union the type tags,
merge `properties`/`required` when both sides are objects, merge `items`
when both sides are arrays. -/
def mergeSchemas : Option JsonSchema → Option JsonSchema → JsonSchema
  | none, right => right.getD JsonSchema.empty
  | some left, none => left
  | some left, some right =>
    let types := dedupFirst
      (normalizeTypes (some left) ++ normalizeTypes (some right))
    let mergedType : Option SchemaType := storeTypes types
    let leftIsObject := (normalizeTypes (some left)).contains "object"
    let rightIsObject := (normalizeTypes (some right)).contains "object"
    let mergedProps : Option (List (String × JsonSchema)) :=
      if leftIsObject && rightIsObject then
        let leftProps := left.properties.getD []
        let rightProps := right.properties.getD []
        let keys := dedupFirst
          (leftProps.map Prod.fst ++ rightProps.map Prod.fst)
        some (mergeProps leftProps rightProps keys)
      else none
    let mergedRequired : Option (List String) :=
      if leftIsObject && rightIsObject then
        let leftRequired := dedupFirst (left.required.getD [])
        let required := leftRequired.filter
          (fun k => (right.required.getD []).contains k)
        if required.length > 0 then some required else none
      else none
    let leftIsArray := (normalizeTypes (some left)).contains "array"
    let rightIsArray := (normalizeTypes (some right)).contains "array"
    let mergedItems : Option JsonSchema :=
      if leftIsArray && rightIsArray then
        some (mergeSchemas left.items right.items)
      else none
    JsonSchema.mk none mergedType mergedProps mergedItems mergedRequired
termination_by a b => (sizeOf a + sizeOf b, 0)
decreasing_by
  · have hl := sizeOf_properties_lt left
    have hr := sizeOf_properties_lt right
    apply Prod.Lex.left
    simp only [Option.some.sizeOf_spec]
    omega
  · apply Prod.Lex.left
    have hl := sizeOf_items_lt left
    have hr := sizeOf_items_lt right
    simp only [Option.some.sizeOf_spec]
    omega

/-- The `keys.forEach` loop of `mergeSchemas`: merge, key by key, the two
property lists over the unioned key list. -/
def mergeProps (lp rp : List (String × JsonSchema)) :
    List String → List (String × JsonSchema)
  | [] => []
  | k :: ks =>
    (k, mergeSchemas (lookupProp lp k) (lookupProp rp k)) :: mergeProps lp rp ks
termination_by l => (sizeOf lp + sizeOf rp, l.length + 1)
decreasing_by
  · exact lex_le_aux (sizeOf_lookupProp lp _) (sizeOf_lookupProp rp _) (by omega)
  · exact Prod.Lex.right _ (by simp only [List.length_cons]; omega)

end

mutual

/-- `inferSchema(value)` from the source: scalar tags by value kind,
arrays fold their element schemas through `mergeSchemas`, objects infer
each property and mark every present key as required. -/
def inferSchema : JsonValue → JsonSchema
  | JsonValue.null =>
    JsonSchema.mk none (some (SchemaType.single "null")) none none none
  | JsonValue.arr items =>
    match items with
    | [] =>
      JsonSchema.mk none (some (SchemaType.single "array")) none
        (some JsonSchema.empty) none
    | i :: is =>
      let itemsSchema := inferFold none (i :: is)
      JsonSchema.mk none (some (SchemaType.single "array")) none
        (some (itemsSchema.getD JsonSchema.empty)) none
  | JsonValue.obj entries =>
    let props := inferProps entries
    let required := props.map Prod.fst
    JsonSchema.mk none (some (SchemaType.single "object")) (some props) none
      (if required.length > 0 then some required else none)
  | JsonValue.num q =>
    JsonSchema.mk none
      (some (SchemaType.single (if q.den = 1 then "integer" else "number")))
      none none none
  | JsonValue.bool _ =>
    JsonSchema.mk none (some (SchemaType.single "boolean")) none none none
  | JsonValue.str _ =>
    JsonSchema.mk none (some (SchemaType.single "string")) none none none
termination_by v => sizeOf v
decreasing_by all_goals (simp_wf <;> omega)

/-- The `value.reduce((acc, item) => mergeSchemas(acc, inferSchema(item)), null)`
fold over array elements. -/
def inferFold : Option JsonSchema → List JsonValue → Option JsonSchema
  | acc, [] => acc
  | acc, v :: vs => inferFold (some (mergeSchemas acc (some (inferSchema v)))) vs
termination_by _ vs => sizeOf vs
decreasing_by all_goals (simp_wf <;> omega)

/-- The `Object.entries(value).forEach` loop of `inferSchema`: infer
each property value's schema, preserving key order. -/
def inferProps : List (String × JsonValue) → List (String × JsonSchema)
  | [] => []
  | (k, v) :: rest => (k, inferSchema v) :: inferProps rest
termination_by es => sizeOf es
decreasing_by all_goals (simp_wf <;> omega)

end

theorem sizeOf_take_le {α : Type} [SizeOf α] (l : List α) (n : Nat) :
    sizeOf (l.take n) ≤ sizeOf l := by
  induction l generalizing n with
  | nil => simp [List.take]
  | cons hd tl ih =>
    cases n with
    | zero => simp only [List.take]; simp; omega
    | succ m =>
      simp only [List.take, List.cons.sizeOf_spec]
      have := ih m
      omega

mutual

/-- `trimStructure(value, maxArrayLen)` from the source: arrays are
sliced to their first `maxArrayLen` elements and trimmed recursively,
objects keep their entries (trimming each value), scalars pass through. -/
def trimStructure : JsonValue → Nat → JsonValue
  | JsonValue.arr items, n => JsonValue.arr (trimList (items.take n) n)
  | JsonValue.obj entries, n => JsonValue.obj (trimEntries entries n)
  | v, _ => v
termination_by v _ => sizeOf v
decreasing_by
  · have := sizeOf_take_le items n
    simp_wf <;> omega
  · simp_wf <;> omega

/-- The `.map((item) => trimStructure(item, maxArrayLen))` over a sliced
array. -/
def trimList : List JsonValue → Nat → List JsonValue
  | [], _ => []
  | v :: vs, n => trimStructure v n :: trimList vs n
termination_by vs _ => sizeOf vs
decreasing_by all_goals (simp_wf <;> omega)

/-- The `Object.entries(value).map(([key, val]) => [key, trimStructure(val, ...)])`
over an object's entries. -/
def trimEntries : List (String × JsonValue) → Nat → List (String × JsonValue)
  | [], _ => []
  | (k, v) :: rest, n => (k, trimStructure v n) :: trimEntries rest n
termination_by es _ => sizeOf es
decreasing_by all_goals (simp_wf <;> omega)

end

/-- The constant draft identifier written at the document root. -/
def draftIdentifier : String := "https://json-schema.org/draft/2020-12/schema"

/-- `generateSchema(value) = {$schema: <draft identifier>, ...inferSchema(value)}`.
The spread comes second, so an (in fact never produced) `$schema` field of
the inferred schema would win over the constant. -/
def generateSchema (v : JsonValue) : JsonSchema :=
  match inferSchema v with
  | JsonSchema.mk u t p i r =>
    JsonSchema.mk (some (u.getD draftIdentifier)) t p i r

/-- The type tags of a schema, as `normalizeTypes` sees them. -/
def tags (s : JsonSchema) : List String := normalizeTypes (some s)

/-- The kind of a JSON node: scalar, array, or object. -/
inductive JsonKind : Type where
  | scalar : JsonKind
  | array : JsonKind
  | object : JsonKind
deriving DecidableEq

/-- Classify a JSON value as scalar, array, or object. -/
def kindOf : JsonValue → JsonKind
  | JsonValue.arr _ => JsonKind.array
  | JsonValue.obj _ => JsonKind.object
  | _ => JsonKind.scalar

/-- Whether a JSON value is a scalar leaf. -/
def isScalar : JsonValue → Bool
  | JsonValue.arr _ => false
  | JsonValue.obj _ => false
  | _ => true

/-- The key list of a top-level object (empty for non-objects). -/
def topKeys : JsonValue → List String
  | JsonValue.obj entries => entries.map Prod.fst
  | _ => []

/-- The length of a top-level array (zero for non-arrays). -/
def topArrayLen : JsonValue → Nat
  | JsonValue.arr items => items.length
  | _ => 0

mutual

/-- The largest array length occurring anywhere in a JSON value. -/
def maxArrLen : JsonValue → Nat
  | JsonValue.arr items => max items.length (maxArrLenList items)
  | JsonValue.obj entries => maxArrLenEntries entries
  | _ => 0
termination_by v => sizeOf v
decreasing_by all_goals (simp_wf <;> omega)

/-- `maxArrLen` over the elements of an array. -/
def maxArrLenList : List JsonValue → Nat
  | [] => 0
  | v :: vs => max (maxArrLen v) (maxArrLenList vs)
termination_by vs => sizeOf vs
decreasing_by all_goals (simp_wf <;> omega)

/-- `maxArrLen` over the values of an object. -/
def maxArrLenEntries : List (String × JsonValue) → Nat
  | [] => 0
  | (_, v) :: rest => max (maxArrLen v) (maxArrLenEntries rest)
termination_by es => sizeOf es
decreasing_by all_goals (simp_wf <;> omega)

end

mutual

/-- Whether every array occurring anywhere in a JSON value has length at
most `n`. -/
def arraysLenLE : JsonValue → Nat → Bool
  | JsonValue.arr items, n => decide (items.length ≤ n) && arraysLenLEList items n
  | JsonValue.obj entries, n => arraysLenLEEntries entries n
  | _, _ => true
termination_by v _ => sizeOf v
decreasing_by all_goals (simp_wf <;> omega)

/-- `arraysLenLE` over the elements of an array. -/
def arraysLenLEList : List JsonValue → Nat → Bool
  | [], _ => true
  | v :: vs, n => arraysLenLE v n && arraysLenLEList vs n
termination_by vs _ => sizeOf vs
decreasing_by all_goals (simp_wf <;> omega)

/-- `arraysLenLE` over the values of an object. -/
def arraysLenLEEntries : List (String × JsonValue) → Nat → Bool
  | [], _ => true
  | (_, v) :: rest, n => arraysLenLE v n && arraysLenLEEntries rest n
termination_by es _ => sizeOf es
decreasing_by all_goals (simp_wf <;> omega)

end

mutual

/-- Whether a schema and all its descendants carry no `$schema` field. -/
def schemaNoUri : JsonSchema → Bool
  | JsonSchema.mk u _ p i _ =>
    u.isNone &&
      (match p with
       | none => true
       | some ps => propsNoUri ps) &&
      (match i with
       | none => true
       | some s => schemaNoUri s)
termination_by s => sizeOf s
decreasing_by all_goals (simp_wf <;> omega)

/-- `schemaNoUri` over a property list. -/
def propsNoUri : List (String × JsonSchema) → Bool
  | [] => true
  | (_, s) :: rest => schemaNoUri s && propsNoUri rest
termination_by ps => sizeOf ps
decreasing_by all_goals (simp_wf <;> omega)

end

/-- Whether all proper subschemas (property schemas and the items schema,
recursively) of a schema carry no `$schema` field. -/
def childrenNoUri : JsonSchema → Bool
  | JsonSchema.mk _ _ p i _ =>
    (match p with
     | none => true
     | some ps => propsNoUri ps) &&
    (match i with
     | none => true
     | some s => schemaNoUri s)

theorem mem_dedupFirst {a : String} : ∀ {l : List String},
    a ∈ dedupFirst l ↔ a ∈ l := by
  intro l
  induction l with
  | nil => simp [dedupFirst]
  | cons x xs ih =>
    simp only [dedupFirst, List.mem_cons, List.mem_filter, ih]
    by_cases h : a = x
    · simp [h]
    · simp [h]

theorem merge_uri_eq (l r : JsonSchema) :
    (mergeSchemas (some l) (some r)).uri = none := by
  simp only [mergeSchemas, JsonSchema.uri]

theorem merge_type_eq (l r : JsonSchema) :
    (mergeSchemas (some l) (some r)).type
      = storeTypes (dedupFirst (tags l ++ tags r)) := by
  simp only [mergeSchemas, JsonSchema.type, tags]

theorem merge_properties_eq (l r : JsonSchema) :
    (mergeSchemas (some l) (some r)).properties
      = (if (tags l).contains "object" && (tags r).contains "object" then
           some (mergeProps (l.properties.getD []) (r.properties.getD [])
             (dedupFirst ((l.properties.getD []).map Prod.fst
               ++ (r.properties.getD []).map Prod.fst)))
         else none) := by
  simp only [mergeSchemas, JsonSchema.properties, tags]

theorem merge_required_eq (l r : JsonSchema) :
    (mergeSchemas (some l) (some r)).required
      = (if (tags l).contains "object" && (tags r).contains "object" then
           (if ((dedupFirst (l.required.getD [])).filter
                  (fun k => (r.required.getD []).contains k)).length > 0 then
              some ((dedupFirst (l.required.getD [])).filter
                (fun k => (r.required.getD []).contains k))
            else none)
         else none) := by
  simp only [mergeSchemas, JsonSchema.required, tags]

theorem merge_items_eq (l r : JsonSchema) :
    (mergeSchemas (some l) (some r)).items
      = (if (tags l).contains "array" && (tags r).contains "array" then
           some (mergeSchemas l.items r.items)
         else none) := by
  simp only [mergeSchemas, JsonSchema.items, tags]

theorem merge_none_left (b : JsonSchema) : mergeSchemas none (some b) = b := by
  simp only [mergeSchemas, Option.getD]

theorem merge_none_right (a : Option JsonSchema) :
    mergeSchemas a none = a.getD JsonSchema.empty := by
  cases a with
  | none => simp only [mergeSchemas, Option.getD]
  | some l => simp only [mergeSchemas, Option.getD]

theorem tags_eq_of_storeTypes (s : JsonSchema) (D : List String)
    (ht : s.type = storeTypes D) (h : ∀ t, D = [t] → t ≠ "") : tags s = D := by
  obtain ⟨u, t, p, i, r⟩ := s
  simp only [JsonSchema.type] at ht
  subst ht
  match D with
  | [] => simp [tags, normalizeTypes, storeTypes, JsonSchema.type]
  | [t] =>
    have : t ≠ "" := h t rfl
    simp [tags, normalizeTypes, storeTypes, JsonSchema.type, this]
  | t1 :: t2 :: rest =>
    simp [tags, normalizeTypes, storeTypes, JsonSchema.type]

theorem tags_merge (l r : JsonSchema) (hl : "" ∉ tags l) (hr : "" ∉ tags r) :
    tags (mergeSchemas (some l) (some r)) = dedupFirst (tags l ++ tags r) := by
  apply tags_eq_of_storeTypes _ _ (merge_type_eq l r)
  intro t hD he
  subst he
  have hmem : "" ∈ dedupFirst (tags l ++ tags r) := by
    rw [hD]
    exact List.mem_singleton_self ""
  rw [mem_dedupFirst, List.mem_append] at hmem
  rcases hmem with h | h
  · exact hl h
  · exact hr h

theorem trimList_length (l : List JsonValue) (n : Nat) :
    (trimList l n).length = l.length := by
  induction l with
  | nil => simp [trimList]
  | cons v vs ih => simp [trimList, ih]

theorem trimEntries_keys (es : List (String × JsonValue)) (n : Nat) :
    (trimEntries es n).map Prod.fst = es.map Prod.fst := by
  induction es with
  | nil => simp [trimEntries]
  | cons e rest ih =>
    obtain ⟨k, v⟩ := e
    simp [trimEntries, ih]

mutual

theorem trim_arraysLenLE (v : JsonValue) (n : Nat) :
    arraysLenLE (trimStructure v n) n = true := by
  cases v with
  | arr items =>
    have hsz : sizeOf (items.take n) < 1 + sizeOf items := by
      have := sizeOf_take_le items n
      omega
    have h1 := trimList_arraysLenLE (items.take n) n
    have h2 : (trimList (items.take n) n).length ≤ n := by
      rw [trimList_length, List.length_take]
      omega
    simp [trimStructure, arraysLenLE, h1, h2]
  | obj entries =>
    have h := trimEntries_arraysLenLE entries n
    simp [trimStructure, arraysLenLE, h]
  | str s => simp [trimStructure, arraysLenLE]
  | num q => simp [trimStructure, arraysLenLE]
  | bool b => simp [trimStructure, arraysLenLE]
  | null => simp [trimStructure, arraysLenLE]
termination_by sizeOf v

theorem trimList_arraysLenLE (l : List JsonValue) (n : Nat) :
    arraysLenLEList (trimList l n) n = true := by
  cases l with
  | nil => simp [trimList, arraysLenLEList]
  | cons v vs =>
    have h1 := trim_arraysLenLE v n
    have h2 := trimList_arraysLenLE vs n
    simp [trimList, arraysLenLEList, h1, h2]
termination_by sizeOf l
decreasing_by all_goals (simp_wf <;> omega)

theorem trimEntries_arraysLenLE (es : List (String × JsonValue)) (n : Nat) :
    arraysLenLEEntries (trimEntries es n) n = true := by
  cases es with
  | nil => simp [trimEntries, arraysLenLEEntries]
  | cons e rest =>
    obtain ⟨k, v⟩ := e
    have h1 := trim_arraysLenLE v n
    have h2 := trimEntries_arraysLenLE rest n
    simp [trimEntries, arraysLenLEEntries, h1, h2]
termination_by sizeOf es
decreasing_by all_goals (simp_wf <;> omega)

end

mutual

theorem trim_idem_val (v : JsonValue) (n : Nat) :
    trimStructure (trimStructure v n) n = trimStructure v n := by
  cases v with
  | arr items =>
    have hsz : sizeOf (items.take n) < 1 + sizeOf items := by
      have := sizeOf_take_le items n
      omega
    have hlen : (trimList (items.take n) n).length ≤ n := by
      rw [trimList_length, List.length_take]
      omega
    have h := trimList_idem (items.take n) n
    simp [trimStructure, List.take_of_length_le hlen, h]
  | obj entries =>
    have h := trimEntries_idem entries n
    simp [trimStructure, h]
  | str s => simp [trimStructure]
  | num q => simp [trimStructure]
  | bool b => simp [trimStructure]
  | null => simp [trimStructure]
termination_by sizeOf v

theorem trimList_idem (l : List JsonValue) (n : Nat) :
    trimList (trimList l n) n = trimList l n := by
  cases l with
  | nil => simp [trimList]
  | cons v vs =>
    have h1 := trim_idem_val v n
    have h2 := trimList_idem vs n
    simp [trimList, h1, h2]
termination_by sizeOf l

theorem trimEntries_idem (es : List (String × JsonValue)) (n : Nat) :
    trimEntries (trimEntries es n) n = trimEntries es n := by
  cases es with
  | nil => simp [trimEntries]
  | cons e rest =>
    obtain ⟨k, v⟩ := e
    have h1 := trim_idem_val v n
    have h2 := trimEntries_idem rest n
    simp [trimEntries, h1, h2]
termination_by sizeOf es

end

mutual

theorem trim_id_of_maxArrLen : ∀ (v : JsonValue) (n : Nat),
    maxArrLen v ≤ n → trimStructure v n = v
  | JsonValue.arr items, n, h => by
    have hm : max items.length (maxArrLenList items) ≤ n := by
      rw [show max items.length (maxArrLenList items)
          = maxArrLen (JsonValue.arr items) from by simp [maxArrLen]]
      exact h
    have hlen : items.length ≤ n := by omega
    have h2 := trimList_id_of_maxArrLen items n (by omega)
    simp [trimStructure, List.take_of_length_le hlen, h2]
  | JsonValue.obj entries, n, h => by
    have hm : maxArrLenEntries entries ≤ n := by
      rw [show maxArrLenEntries entries
          = maxArrLen (JsonValue.obj entries) from by simp [maxArrLen]]
      exact h
    have h2 := trimEntries_id_of_maxArrLen entries n hm
    simp [trimStructure, h2]
  | JsonValue.str s, _, _ => by simp [trimStructure]
  | JsonValue.num q, _, _ => by simp [trimStructure]
  | JsonValue.bool b, _, _ => by simp [trimStructure]
  | JsonValue.null, _, _ => by simp [trimStructure]
termination_by v _ _ => sizeOf v

theorem trimList_id_of_maxArrLen : ∀ (l : List JsonValue) (n : Nat),
    maxArrLenList l ≤ n → trimList l n = l
  | [], n, _ => by simp [trimList]
  | v :: vs, n, h => by
    have hm : max (maxArrLen v) (maxArrLenList vs) ≤ n := by
      rw [show max (maxArrLen v) (maxArrLenList vs)
          = maxArrLenList (v :: vs) from by simp [maxArrLenList]]
      exact h
    have h1 := trim_id_of_maxArrLen v n (by omega)
    have h2 := trimList_id_of_maxArrLen vs n (by omega)
    simp [trimList, h1, h2]
termination_by l _ _ => sizeOf l

theorem trimEntries_id_of_maxArrLen : ∀ (es : List (String × JsonValue)) (n : Nat),
    maxArrLenEntries es ≤ n → trimEntries es n = es
  | [], n, _ => by simp [trimEntries]
  | (k, v) :: rest, n, h => by
    have hm : max (maxArrLen v) (maxArrLenEntries rest) ≤ n := by
      rw [show max (maxArrLen v) (maxArrLenEntries rest)
          = maxArrLenEntries ((k, v) :: rest) from by simp [maxArrLenEntries]]
      exact h
    have h1 := trim_id_of_maxArrLen v n (by omega)
    have h2 := trimEntries_id_of_maxArrLen rest n (by omega)
    simp [trimEntries, h1, h2]
termination_by es _ _ => sizeOf es

end

theorem kindOf_trim (v : JsonValue) (n : Nat) :
    kindOf (trimStructure v n) = kindOf v := by
  cases v <;> simp [trimStructure, kindOf]

theorem topKeys_trim (v : JsonValue) (n : Nat) :
    topKeys (trimStructure v n) = topKeys v := by
  cases v <;> simp [trimStructure, topKeys, trimEntries_keys]

theorem isScalar_trim_id (v : JsonValue) (n : Nat) (h : isScalar v = true) :
    trimStructure v n = v := by
  cases v <;> simp_all [isScalar, trimStructure]

theorem trimList_eq_map (l : List JsonValue) (n : Nat) :
    trimList l n = l.map (fun w => trimStructure w n) := by
  induction l with
  | nil => simp [trimList]
  | cons v vs ih => simp [trimList, ih]

/-- C3: for every JSON value and every limit `n ≥ 0`, every array occurring
anywhere in `trimStructure value n` has length at most `n` (the same limit
at every nesting level); trimming an array yields exactly
`min n (original length)` elements, namely the first `min n (original
length)` original elements in their original order, each trimmed
recursively with the same limit. -/
theorem trim_length_bound_c3 (v : JsonValue) (n : Nat) (xs : List JsonValue) :
    arraysLenLE (trimStructure v n) n = true
    ∧ topArrayLen (trimStructure (JsonValue.arr xs) n) = min n xs.length
    ∧ trimStructure (JsonValue.arr xs) n
        = JsonValue.arr ((xs.take n).map (fun w => trimStructure w n)) := by
  refine ⟨trim_arraysLenLE v n, ?_, ?_⟩
  · simp [trimStructure, topArrayLen, trimList_length, List.length_take]
  · simp [trimStructure, trimList_eq_map]

/-- C5: `trimStructure` preserves the kind of every node and the key list
of objects, returns scalar leaves unchanged, and is the identity whenever
the limit is at least the maximum array length occurring in the value. -/
theorem trim_structure_preservation_c5 (v : JsonValue) (n : Nat) :
    kindOf (trimStructure v n) = kindOf v
    ∧ topKeys (trimStructure v n) = topKeys v
    ∧ (isScalar v = true → trimStructure v n = v)
    ∧ (maxArrLen v ≤ n → trimStructure v n = v) :=
  ⟨kindOf_trim v n, topKeys_trim v n, isScalar_trim_id v n,
    trim_id_of_maxArrLen v n⟩

/-- Witness for C5 at concrete inputs: a scalar leaf survives `trim` with
limit 0, and a document whose largest array has 2 elements survives
`trim` with limit 2. -/
theorem trim_structure_preservation_c5_witness :
    trimStructure (JsonValue.str "x") 0 = JsonValue.str "x"
    ∧ trimStructure
        (JsonValue.obj [("a", JsonValue.arr [JsonValue.num 1, JsonValue.str "y"]),
          ("b", JsonValue.null)]) 2
      = JsonValue.obj [("a", JsonValue.arr [JsonValue.num 1, JsonValue.str "y"]),
          ("b", JsonValue.null)] :=
  ⟨(trim_structure_preservation_c5 (JsonValue.str "x") 0).2.2.1 rfl,
   (trim_structure_preservation_c5 _ 2).2.2.2
     (by simp [maxArrLen, maxArrLenList, maxArrLenEntries])⟩

/-- C6: `trimStructure` is idempotent at any fixed limit `n`. -/
theorem trim_idempotent_c6 (v : JsonValue) (n : Nat) :
    trimStructure (trimStructure v n) n = trimStructure v n :=
  trim_idem_val v n

/-- C7: scalar inference is by value kind: `null`, booleans, and strings
get their fixed tags, and a number infers `integer` exactly when it has no
fractional part, per individual value (`5` vs `5.5`). -/
theorem infer_scalars_c7 (q : ℚ) (s : String) (b : Bool) :
    inferSchema JsonValue.null
      = JsonSchema.mk none (some (SchemaType.single "null")) none none none
    ∧ inferSchema (JsonValue.bool b)
      = JsonSchema.mk none (some (SchemaType.single "boolean")) none none none
    ∧ inferSchema (JsonValue.str s)
      = JsonSchema.mk none (some (SchemaType.single "string")) none none none
    ∧ inferSchema (JsonValue.num q)
      = JsonSchema.mk none
          (some (SchemaType.single (if q.den = 1 then "integer" else "number")))
          none none none
    ∧ inferSchema (JsonValue.num 5)
      = JsonSchema.mk none (some (SchemaType.single "integer")) none none none
    ∧ inferSchema (JsonValue.num (5.5 : ℚ))
      = JsonSchema.mk none (some (SchemaType.single "number")) none none none := by
  have h5 : (5 : ℚ).den = 1 := by norm_num
  have h55 : (5.5 : ℚ).den = 2 := by norm_num
  exact ⟨by simp [inferSchema], by simp [inferSchema], by simp [inferSchema],
    by simp [inferSchema], by simp [inferSchema, h5], by simp [inferSchema, h55]⟩

/-- C8: `mergeSchemas` produces `properties` (resp. `items`) exactly when
both inputs' own type sets contain `object` (resp. `array`), and produces
`required` only when both contain `object`. -/
theorem merge_substructure_gating_c8 (l r : JsonSchema) :
    (mergeSchemas (some l) (some r)).properties.isSome
      = ((tags l).contains "object" && (tags r).contains "object")
    ∧ (mergeSchemas (some l) (some r)).items.isSome
      = ((tags l).contains "array" && (tags r).contains "array")
    ∧ ((mergeSchemas (some l) (some r)).required.isSome = true →
        ((tags l).contains "object" && (tags r).contains "object") = true) := by
  refine ⟨?_, ?_, ?_⟩
  · rw [merge_properties_eq]
    cases hb : ((tags l).contains "object" && (tags r).contains "object") with
    | false => rfl
    | true => rfl
  · rw [merge_items_eq]
    cases hb : ((tags l).contains "array" && (tags r).contains "array") with
    | false => rfl
    | true => rfl
  · rw [merge_required_eq]
    cases hb : ((tags l).contains "object" && (tags r).contains "object") with
    | false =>
      intro h
      simp at h
    | true =>
      intro _
      rfl

/-- Witness for C8: a merge of two object schemas with a common required
key does produce a `required` field, so both inputs carry the `object`
tag. -/
theorem merge_substructure_gating_c8_witness :
    ((tags (JsonSchema.mk none (some (SchemaType.single "object")) (some [])
        none (some ["a"]))).contains "object"
      && (tags (JsonSchema.mk none (some (SchemaType.single "object")) (some [])
        none (some ["a", "b"]))).contains "object") = true :=
  (merge_substructure_gating_c8
      (JsonSchema.mk none (some (SchemaType.single "object")) (some [])
        none (some ["a"]))
      (JsonSchema.mk none (some (SchemaType.single "object")) (some [])
        none (some ["a", "b"]))).2.2
    (by simp [mergeSchemas, mergeProps, lookupProp, tags, normalizeTypes,
      dedupFirst, JsonSchema.type, JsonSchema.required, JsonSchema.properties])

/-- A concrete object schema (inferred shape of `{"x": 1}`), used as a
merge operand in examples. -/
def objXSchema : JsonSchema :=
  JsonSchema.mk none (some (SchemaType.single "object"))
    (some [("x", JsonSchema.mk none (some (SchemaType.single "integer"))
      none none none)])
    none (some ["x"])

/-- C10: the empty schema `{}` is not a two-sided identity for merge,
unlike an absent (`null`) operand: merging `{}` with an object- or
array-tagged schema keeps the type tags but drops `properties`,
`required`, and `items`, whereas merging `null` with a schema returns the
schema itself. -/
theorem empty_schema_not_identity_c10 (b : JsonSchema)
    (hb : ((tags b).contains "object" || (tags b).contains "array") = true) :
    tags (mergeSchemas (some JsonSchema.empty) (some b)) = dedupFirst (tags b)
    ∧ (mergeSchemas (some JsonSchema.empty) (some b)).properties = none
    ∧ (mergeSchemas (some JsonSchema.empty) (some b)).required = none
    ∧ (mergeSchemas (some JsonSchema.empty) (some b)).items = none
    ∧ mergeSchemas none (some b) = b := by
  have het : tags JsonSchema.empty = [] := rfl
  refine ⟨?_, ?_, ?_, ?_, merge_none_left b⟩
  · apply tags_eq_of_storeTypes
    · rw [merge_type_eq, het, List.nil_append]
    · intro t hD he
      subst he
      rw [Bool.or_eq_true] at hb
      rcases hb with h | h
      · have hm : "object" ∈ tags b := by simpa using h
        have hm2 : "object" ∈ dedupFirst (tags b) := mem_dedupFirst.mpr hm
        rw [hD] at hm2
        simp at hm2
      · have hm : "array" ∈ tags b := by simpa using h
        have hm2 : "array" ∈ dedupFirst (tags b) := mem_dedupFirst.mpr hm
        rw [hD] at hm2
        simp at hm2
  · rw [merge_properties_eq, het]
    rfl
  · rw [merge_required_eq, het]
    rfl
  · rw [merge_items_eq, het]
    rfl

/-- Witness for C10 at the concrete object schema inferred from
`{"x": 1}`. -/
theorem empty_schema_not_identity_c10_witness :
    tags (mergeSchemas (some JsonSchema.empty) (some objXSchema))
        = dedupFirst (tags objXSchema)
    ∧ (mergeSchemas (some JsonSchema.empty) (some objXSchema)).properties = none
    ∧ (mergeSchemas (some JsonSchema.empty) (some objXSchema)).required = none
    ∧ (mergeSchemas (some JsonSchema.empty) (some objXSchema)).items = none
    ∧ mergeSchemas none (some objXSchema) = objXSchema :=
  empty_schema_not_identity_c10 objXSchema (by decide)

/-- C4: when both merge operands carry the `object` tag, the merged
`required` is exactly the intersection of the two `required` lists
(membership-wise), omitted exactly when that intersection is empty; and
the spec's example `[{"a":1,"b":2},{"a":1}]` infers an item schema with
properties `a`, `b` and `required = ["a"]`. -/
theorem merge_required_intersection_c4 (l r : JsonSchema)
    (hl : (tags l).contains "object" = true)
    (hr : (tags r).contains "object" = true) :
    (∀ s : String,
        s ∈ (mergeSchemas (some l) (some r)).required.getD []
          ↔ s ∈ l.required.getD [] ∧ s ∈ r.required.getD [])
    ∧ ((mergeSchemas (some l) (some r)).required = none
        ↔ ∀ s ∈ l.required.getD [], s ∉ r.required.getD [])
    ∧ (inferSchema (JsonValue.arr
        [JsonValue.obj [("a", JsonValue.num 1), ("b", JsonValue.num 2)],
         JsonValue.obj [("a", JsonValue.num 1)]])).items
      = some (JsonSchema.mk none (some (SchemaType.single "object"))
          (some [("a", JsonSchema.mk none (some (SchemaType.single "integer"))
                    none none none),
                 ("b", JsonSchema.mk none (some (SchemaType.single "integer"))
                    none none none)])
          none (some ["a"])) := by
  have hmemR : ∀ s : String,
      s ∈ (dedupFirst (l.required.getD [])).filter
            (fun k => (r.required.getD []).contains k)
        ↔ (s ∈ l.required.getD [] ∧ s ∈ r.required.getD []) := by
    intro s
    rw [List.mem_filter, mem_dedupFirst]
    simp
  have hreq : (mergeSchemas (some l) (some r)).required
      = (if ((dedupFirst (l.required.getD [])).filter
              (fun k => (r.required.getD []).contains k)).length > 0 then
           some ((dedupFirst (l.required.getD [])).filter
             (fun k => (r.required.getD []).contains k))
         else none) := by
    rw [merge_required_eq, hl, hr]
    rfl
  refine ⟨?_, ?_, ?_⟩
  · intro s
    rw [hreq]
    by_cases hR : (dedupFirst (l.required.getD [])).filter
        (fun k => (r.required.getD []).contains k) = []
    · rw [if_neg (by rw [hR]; simp)]
      simp only [Option.getD_none, List.not_mem_nil, false_iff]
      intro hc
      have := (hmemR s).mpr hc
      rw [hR] at this
      simp at this
    · rw [if_pos (List.length_pos.mpr hR)]
      simp only [Option.getD_some]
      exact hmemR s
  · rw [hreq]
    by_cases hR : (dedupFirst (l.required.getD [])).filter
        (fun k => (r.required.getD []).contains k) = []
    · rw [if_neg (by rw [hR]; simp)]
      simp only [true_iff]
      intro s hs hs2
      have := (hmemR s).mpr ⟨hs, hs2⟩
      rw [hR] at this
      simp at this
    · rw [if_pos (List.length_pos.mpr hR)]
      simp only [reduceCtorEq, false_iff]
      intro hall
      rcases List.exists_mem_of_ne_nil _ hR with ⟨s, hs⟩
      have := (hmemR s).mp hs
      exact hall s this.1 this.2
  · simp [inferSchema, inferFold, inferProps, mergeSchemas, mergeProps,
      lookupProp, normalizeTypes, dedupFirst, storeTypes, JsonSchema.type,
      JsonSchema.properties, JsonSchema.items, JsonSchema.required]

/-- Witness for C4 at concrete object schemas with required lists
`["a","b"]` and `["a"]`. -/
theorem merge_required_intersection_c4_witness :
    (∀ s : String,
        s ∈ (mergeSchemas
              (some (JsonSchema.mk none (some (SchemaType.single "object"))
                (some []) none (some ["a", "b"])))
              (some (JsonSchema.mk none (some (SchemaType.single "object"))
                (some []) none (some ["a"])))).required.getD []
          ↔ s ∈ ["a", "b"] ∧ s ∈ ["a"])
    ∧ ((mergeSchemas
          (some (JsonSchema.mk none (some (SchemaType.single "object"))
            (some []) none (some ["a", "b"])))
          (some (JsonSchema.mk none (some (SchemaType.single "object"))
            (some []) none (some ["a"])))).required = none
        ↔ ∀ s ∈ ["a", "b"], s ∉ (["a"] : List String)) :=
  ⟨(merge_required_intersection_c4
      (JsonSchema.mk none (some (SchemaType.single "object"))
        (some []) none (some ["a", "b"]))
      (JsonSchema.mk none (some (SchemaType.single "object"))
        (some []) none (some ["a"]))
      (by decide) (by decide)).1,
   (merge_required_intersection_c4
      (JsonSchema.mk none (some (SchemaType.single "object"))
        (some []) none (some ["a", "b"]))
      (JsonSchema.mk none (some (SchemaType.single "object"))
        (some []) none (some ["a"]))
      (by decide) (by decide)).2.1⟩

/-- `schemaNoUri` lifted to an optional schema (absent counts as clean). -/
def optNoUri : Option JsonSchema → Bool
  | none => true
  | some s => schemaNoUri s

theorem schemaNoUri_uri {s : JsonSchema} (h : schemaNoUri s = true) :
    s.uri = none := by
  obtain ⟨u, t, p, i, r⟩ := s
  rw [schemaNoUri.eq_def] at h
  simp only [Bool.and_eq_true, Option.isNone_iff_eq_none] at h
  simpa [JsonSchema.uri] using h.1.1

theorem schemaNoUri_props {s : JsonSchema} (h : schemaNoUri s = true) :
    propsNoUri (s.properties.getD []) = true := by
  obtain ⟨u, t, p, i, r⟩ := s
  rw [schemaNoUri.eq_def] at h
  simp only [Bool.and_eq_true] at h
  cases p with
  | none => simp [JsonSchema.properties, propsNoUri]
  | some ps => simpa [JsonSchema.properties] using h.1.2

theorem schemaNoUri_items {s : JsonSchema} (h : schemaNoUri s = true) :
    optNoUri s.items = true := by
  obtain ⟨u, t, p, i, r⟩ := s
  rw [schemaNoUri.eq_def] at h
  simp only [Bool.and_eq_true] at h
  cases i with
  | none => simp [JsonSchema.items, optNoUri]
  | some s' => simpa [JsonSchema.items, optNoUri] using h.2

theorem lookupProp_noUri (ps : List (String × JsonSchema)) (k : String)
    (h : propsNoUri ps = true) : optNoUri (lookupProp ps k) = true := by
  induction ps with
  | nil => simp [lookupProp, optNoUri]
  | cons hd tl ih =>
    obtain ⟨k', s⟩ := hd
    simp only [propsNoUri, Bool.and_eq_true] at h
    by_cases hk : k' = k
    · simp only [lookupProp, if_pos hk, optNoUri]
      exact h.1
    · simp only [lookupProp, if_neg hk]
      exact ih h.2

theorem schemaNoUri_empty : schemaNoUri JsonSchema.empty = true := by
  simp [JsonSchema.empty, schemaNoUri]

mutual

theorem merge_noUri : ∀ (a b : Option JsonSchema),
    optNoUri a = true → optNoUri b = true →
    schemaNoUri (mergeSchemas a b) = true
  | none, none, _, _ => by
    simp [mergeSchemas, Option.getD, schemaNoUri_empty]
  | none, some s, _, hb => by
    simpa [mergeSchemas, Option.getD, optNoUri] using hb
  | some l, none, ha, _ => by
    simpa [mergeSchemas, optNoUri] using ha
  | some l, some r, ha, hb => by
    have hla : schemaNoUri l = true := ha
    have hrb : schemaNoUri r = true := hb
    have hprops := mergeProps_noUri (l.properties.getD []) (r.properties.getD [])
      (schemaNoUri_props hla) (schemaNoUri_props hrb)
      (dedupFirst ((l.properties.getD []).map Prod.fst
        ++ (r.properties.getD []).map Prod.fst))
    have hitems := merge_noUri l.items r.items
      (schemaNoUri_items hla) (schemaNoUri_items hrb)
    simp only [mergeSchemas]
    rw [schemaNoUri.eq_def]
    simp only [Option.isNone_none, Bool.true_and, Bool.and_eq_true]
    constructor
    · split
      · rfl
      · rename_i ps heq
        split at heq
        · injection heq with he
          rw [← he]
          exact hprops
        · cases heq
    · split
      · rfl
      · rename_i s' heq
        split at heq
        · injection heq with he
          rw [← he]
          exact hitems
        · cases heq
termination_by a b _ _ => (sizeOf a + sizeOf b, 0)
decreasing_by
  · have hl := sizeOf_properties_lt l
    have hr := sizeOf_properties_lt r
    apply Prod.Lex.left
    simp only [Option.some.sizeOf_spec]
    omega
  · apply Prod.Lex.left
    have hl := sizeOf_items_lt l
    have hr := sizeOf_items_lt r
    simp only [Option.some.sizeOf_spec]
    omega

theorem mergeProps_noUri (lp rp : List (String × JsonSchema))
    (h1 : propsNoUri lp = true) (h2 : propsNoUri rp = true) :
    ∀ ks : List String, propsNoUri (mergeProps lp rp ks) = true
  | [] => by simp [mergeProps, propsNoUri]
  | k :: ks => by
    have hhd := merge_noUri (lookupProp lp k) (lookupProp rp k)
      (lookupProp_noUri lp k h1) (lookupProp_noUri rp k h2)
    have htl := mergeProps_noUri lp rp h1 h2 ks
    simp [mergeProps, propsNoUri, hhd, htl]
termination_by l => (sizeOf lp + sizeOf rp, l.length + 1)
decreasing_by
  · exact lex_le_aux (sizeOf_lookupProp lp _) (sizeOf_lookupProp rp _) (by omega)
  · exact Prod.Lex.right _ (by simp only [List.length_cons]; omega)

end

theorem schemaNoUri_mk (u : Option String) (t : Option SchemaType)
    (p : Option (List (String × JsonSchema))) (i : Option JsonSchema)
    (r : Option (List String)) :
    schemaNoUri (JsonSchema.mk u t p i r)
      = (u.isNone
         && (match p with | none => true | some ps => propsNoUri ps)
         && (match i with | none => true | some s => schemaNoUri s)) := by
  rw [schemaNoUri.eq_def]

mutual

theorem infer_noUri : ∀ v : JsonValue, schemaNoUri (inferSchema v) = true
  | JsonValue.null => by simp [inferSchema, schemaNoUri_mk]
  | JsonValue.str s => by simp [inferSchema, schemaNoUri_mk]
  | JsonValue.num q => by simp [inferSchema, schemaNoUri_mk]
  | JsonValue.bool b => by simp [inferSchema, schemaNoUri_mk]
  | JsonValue.arr items => by
    cases items with
    | nil => simp [inferSchema, schemaNoUri_mk, schemaNoUri_empty]
    | cons i is =>
      have h := inferFold_noUri none (by simp [optNoUri]) (i :: is)
      have hitems : schemaNoUri ((inferFold none (i :: is)).getD
          JsonSchema.empty) = true := by
        cases hfold : inferFold none (i :: is) with
        | none => simpa [Option.getD] using schemaNoUri_empty
        | some s' =>
          rw [hfold] at h
          simpa [Option.getD, optNoUri] using h
      simp [inferSchema, schemaNoUri_mk, hitems]
  | JsonValue.obj entries => by
    have h := inferProps_noUri entries
    simp [inferSchema, schemaNoUri_mk, h]
termination_by v => sizeOf v
decreasing_by all_goals (simp_wf <;> omega)

theorem inferFold_noUri : ∀ (acc : Option JsonSchema),
    optNoUri acc = true → ∀ vs : List JsonValue,
    optNoUri (inferFold acc vs) = true
  | acc, h, [] => by simpa [inferFold] using h
  | acc, h, v :: vs => by
    have hv := infer_noUri v
    have hacc : optNoUri (some (mergeSchemas acc (some (inferSchema v))))
        = true := merge_noUri acc (some (inferSchema v)) h hv
    have htl := inferFold_noUri (some (mergeSchemas acc (some (inferSchema v))))
      hacc vs
    simpa [inferFold] using htl
termination_by _ _ vs => sizeOf vs
decreasing_by all_goals (simp_wf <;> omega)

theorem inferProps_noUri : ∀ es : List (String × JsonValue),
    propsNoUri (inferProps es) = true
  | [] => by simp [inferProps, propsNoUri]
  | (k, v) :: rest => by
    have h1 := infer_noUri v
    have h2 := inferProps_noUri rest
    simp [inferProps, propsNoUri, h1, h2]
termination_by es => sizeOf es
decreasing_by all_goals (simp_wf <;> omega)

end

/-- C9: `generateSchema v` is `inferSchema v` with the one fixed draft
identifier literal added as `$schema` at the root, independent of `v`;
no nested schema below the root carries a `$schema` field. -/
theorem generate_schema_root_c9 (v : JsonValue) :
    generateSchema v
      = JsonSchema.mk (some draftIdentifier) (inferSchema v).type
          (inferSchema v).properties (inferSchema v).items
          (inferSchema v).required
    ∧ (generateSchema v).uri = some draftIdentifier
    ∧ childrenNoUri (generateSchema v) = true := by
  have hno := infer_noUri v
  cases hinf : inferSchema v with
  | mk u t p i r =>
    have hu : u = none := by
      have := schemaNoUri_uri (hinf ▸ hno)
      simpa [JsonSchema.uri] using this
    have hgen : generateSchema v = JsonSchema.mk (some draftIdentifier) t p i r := by
      simp [generateSchema, hinf, hu, Option.getD]
    refine ⟨?_, ?_, ?_⟩
    · rw [hgen]
      simp [JsonSchema.type, JsonSchema.properties, JsonSchema.items,
        JsonSchema.required]
    · rw [hgen]
      simp [JsonSchema.uri]
    · rw [hgen]
      rw [childrenNoUri.eq_def]
      have hp := schemaNoUri_props (hinf ▸ hno)
      have hi := schemaNoUri_items (hinf ▸ hno)
      simp only [JsonSchema.properties, JsonSchema.items] at hp hi
      cases p with
      | none =>
        cases i with
        | none => simp
        | some s' => simpa [optNoUri] using hi
      | some ps =>
        simp only [Option.getD] at hp
        cases i with
        | none => simpa using hp
        | some s' =>
          simp only [optNoUri] at hi
          simp [hp, hi]

/-- C2 (amended): at the root, the schema produced by `inferSchema`
satisfies the invariant: if its type tags contain `object` it has a
`properties` mapping, and if they contain `array` it has an `items`
schema.  (The invariant does not extend below the root: see the
counterexample, where a merged item schema carries the `object` tag
without `properties`.) -/
theorem infer_root_shape_c2 (v : JsonValue) :
    ((tags (inferSchema v)).contains "object" = true →
      (inferSchema v).properties.isSome = true)
    ∧ ((tags (inferSchema v)).contains "array" = true →
      (inferSchema v).items.isSome = true) := by
  cases v with
  | null =>
    simp [inferSchema, tags, normalizeTypes, JsonSchema.type,
      JsonSchema.properties, JsonSchema.items]
  | str s =>
    simp [inferSchema, tags, normalizeTypes, JsonSchema.type,
      JsonSchema.properties, JsonSchema.items]
  | bool b =>
    simp [inferSchema, tags, normalizeTypes, JsonSchema.type,
      JsonSchema.properties, JsonSchema.items]
  | num q =>
    by_cases hq : q.den = 1 <;>
      simp [inferSchema, tags, normalizeTypes, JsonSchema.type,
        JsonSchema.properties, JsonSchema.items, hq]
  | arr items =>
    cases items <;>
      simp [inferSchema, tags, normalizeTypes, JsonSchema.type,
        JsonSchema.properties, JsonSchema.items]
  | obj entries =>
    simp [inferSchema, tags, normalizeTypes, JsonSchema.type,
      JsonSchema.properties, JsonSchema.items]

/-- Witness for C2 at concrete inputs: an object document and an empty
array document. -/
theorem infer_root_shape_c2_witness :
    (inferSchema (JsonValue.obj [("a", JsonValue.num 1)])).properties.isSome
        = true
    ∧ (inferSchema (JsonValue.arr [])).items.isSome = true :=
  ⟨(infer_root_shape_c2 (JsonValue.obj [("a", JsonValue.num 1)])).1
      (by simp [inferSchema, inferProps, tags, normalizeTypes, JsonSchema.type]),
   (infer_root_shape_c2 (JsonValue.arr [])).2
      (by simp [inferSchema, tags, normalizeTypes, JsonSchema.type])⟩

/-- Counterexample for C2: the `items` schema of `infer([{"a":1}, 5])` is
reachable from the inferrer (it is the merge of an object schema with an
integer schema), its type tags contain `object`, yet it has no
`properties` field. -/
theorem infer_items_object_without_properties_c2 :
    "object" ∈ tags ((inferSchema (JsonValue.arr
        [JsonValue.obj [("a", JsonValue.num 1)], JsonValue.num 5])).items.getD
        JsonSchema.empty)
    ∧ ((inferSchema (JsonValue.arr
        [JsonValue.obj [("a", JsonValue.num 1)], JsonValue.num 5])).items.getD
        JsonSchema.empty).properties = none := by
  have h5 : (5 : ℚ).den = 1 := by norm_num
  have h1 : (1 : ℚ).den = 1 := by norm_num
  constructor <;>
    simp [inferSchema, inferFold, inferProps, mergeSchemas, mergeProps,
      lookupProp, normalizeTypes, dedupFirst, storeTypes, tags, h5, h1,
      JsonSchema.type, JsonSchema.properties, JsonSchema.items,
      JsonSchema.required, JsonSchema.empty, Option.getD]

/-- A concrete `{type: "integer"}` schema. -/
def intSchema : JsonSchema :=
  JsonSchema.mk none (some (SchemaType.single "integer")) none none none

/-- A concrete object schema with one property `x` (and no `required`). -/
def objPropXSchema : JsonSchema :=
  JsonSchema.mk none (some (SchemaType.single "object"))
    (some [("x", intSchema)]) none none

/-- A concrete object schema with one property `y` (and no `required`). -/
def objPropYSchema : JsonSchema :=
  JsonSchema.mk none (some (SchemaType.single "object"))
    (some [("y", intSchema)]) none none

/-- C1 (amended): merge is commutative and associative on the type-tag
sets (membership equality), for schemas whose tag lists do not contain
the empty string — so the type set of a fold of element schemas is
order-independent — but the full schemas are not: `properties` depends
on grouping and order (see the counterexample). -/
theorem merge_tagset_comm_assoc_c1 (a b c : JsonSchema)
    (ha : "" ∉ tags a) (hb : "" ∉ tags b) (hc : "" ∉ tags c) :
    (∀ t : String,
        t ∈ tags (mergeSchemas (some (mergeSchemas (some a) (some b))) (some c))
          ↔ t ∈ tags (mergeSchemas (some a)
              (some (mergeSchemas (some b) (some c)))))
    ∧ (∀ t : String,
        t ∈ tags (mergeSchemas (some a) (some b))
          ↔ t ∈ tags (mergeSchemas (some b) (some a))) := by
  have hab : "" ∉ tags (mergeSchemas (some a) (some b)) := by
    rw [tags_merge a b ha hb, mem_dedupFirst, List.mem_append]
    rintro (h | h)
    · exact ha h
    · exact hb h
  have hbc : "" ∉ tags (mergeSchemas (some b) (some c)) := by
    rw [tags_merge b c hb hc, mem_dedupFirst, List.mem_append]
    rintro (h | h)
    · exact hb h
    · exact hc h
  constructor
  · intro t
    rw [tags_merge _ c hab hc, tags_merge a _ ha hbc,
      tags_merge a b ha hb, tags_merge b c hb hc]
    simp only [mem_dedupFirst, List.mem_append]
    tauto
  · intro t
    rw [tags_merge a b ha hb, tags_merge b a hb ha]
    simp only [mem_dedupFirst, List.mem_append]
    tauto

/-- Witness for C1 at three concrete schemas. -/
theorem merge_tagset_comm_assoc_c1_witness :
    (∀ t : String,
        t ∈ tags (mergeSchemas
            (some (mergeSchemas (some intSchema) (some objPropXSchema)))
            (some objPropYSchema))
          ↔ t ∈ tags (mergeSchemas (some intSchema)
              (some (mergeSchemas (some objPropXSchema) (some objPropYSchema)))))
    ∧ (∀ t : String,
        t ∈ tags (mergeSchemas (some intSchema) (some objPropXSchema))
          ↔ t ∈ tags (mergeSchemas (some objPropXSchema) (some intSchema))) :=
  merge_tagset_comm_assoc_c1 intSchema objPropXSchema objPropYSchema
    (by decide) (by decide) (by decide)

/-- Counterexample for C1: with `a = {type:"object", properties:{x}}`,
`b = {type:"integer"}`, `c = {type:"object", properties:{y}}`,
`merge(merge(a,b),c)` keeps property `y` while `merge(a,merge(b,c))`
keeps property `x`, so merge is not associative; and `merge(a,c)` and
`merge(c,a)` have identical `type` fields but differently ordered
`properties`, so they differ beyond the ordering of the type-tag set. -/
theorem merge_not_assoc_not_comm_c1 :
    (mergeSchemas (some (mergeSchemas (some objPropXSchema) (some intSchema)))
        (some objPropYSchema)).properties = some [("y", intSchema)]
    ∧ (mergeSchemas (some objPropXSchema)
        (some (mergeSchemas (some intSchema) (some objPropYSchema)))).properties
        = some [("x", intSchema)]
    ∧ mergeSchemas (some (mergeSchemas (some objPropXSchema) (some intSchema)))
        (some objPropYSchema)
      ≠ mergeSchemas (some objPropXSchema)
        (some (mergeSchemas (some intSchema) (some objPropYSchema)))
    ∧ (mergeSchemas (some objPropXSchema) (some objPropYSchema)).type
        = (mergeSchemas (some objPropYSchema) (some objPropXSchema)).type
    ∧ mergeSchemas (some objPropXSchema) (some objPropYSchema)
      ≠ mergeSchemas (some objPropYSchema) (some objPropXSchema) := by
  have hin1 : mergeSchemas (some objPropXSchema) (some intSchema)
      = JsonSchema.mk none (some (SchemaType.multi ["object", "integer"]))
          none none none := by
    simp [mergeSchemas, mergeProps, lookupProp, normalizeTypes, dedupFirst,
      storeTypes, objPropXSchema, intSchema, JsonSchema.type,
      JsonSchema.properties, JsonSchema.items, JsonSchema.required]
  have hin2 : mergeSchemas (some intSchema) (some objPropYSchema)
      = JsonSchema.mk none (some (SchemaType.multi ["integer", "object"]))
          none none none := by
    simp [mergeSchemas, mergeProps, lookupProp, normalizeTypes, dedupFirst,
      storeTypes, objPropYSchema, intSchema, JsonSchema.type,
      JsonSchema.properties, JsonSchema.items, JsonSchema.required]
  have h1 : (mergeSchemas
      (some (mergeSchemas (some objPropXSchema) (some intSchema)))
      (some objPropYSchema)).properties = some [("y", intSchema)] := by
    rw [hin1]
    simp [mergeSchemas, mergeProps, lookupProp, normalizeTypes, dedupFirst,
      storeTypes, objPropXSchema, objPropYSchema, intSchema,
      JsonSchema.type, JsonSchema.properties, JsonSchema.items,
      JsonSchema.required]
  have h2 : (mergeSchemas (some objPropXSchema)
      (some (mergeSchemas (some intSchema) (some objPropYSchema)))).properties
      = some [("x", intSchema)] := by
    rw [hin2]
    simp [mergeSchemas, mergeProps, lookupProp, normalizeTypes, dedupFirst,
      storeTypes, objPropXSchema, objPropYSchema, intSchema,
      JsonSchema.type, JsonSchema.properties, JsonSchema.items,
      JsonSchema.required]
  have h4a : (mergeSchemas (some objPropXSchema) (some objPropYSchema)).properties
      = some [("x", intSchema), ("y", intSchema)] := by
    simp [mergeSchemas, mergeProps, lookupProp, normalizeTypes, dedupFirst,
      storeTypes, objPropXSchema, objPropYSchema, intSchema,
      JsonSchema.type, JsonSchema.properties, JsonSchema.items,
      JsonSchema.required]
  have h4b : (mergeSchemas (some objPropYSchema) (some objPropXSchema)).properties
      = some [("y", intSchema), ("x", intSchema)] := by
    simp [mergeSchemas, mergeProps, lookupProp, normalizeTypes, dedupFirst,
      storeTypes, objPropXSchema, objPropYSchema, intSchema,
      JsonSchema.type, JsonSchema.properties, JsonSchema.items,
      JsonSchema.required]
  refine ⟨h1, h2, ?_, ?_, ?_⟩
  · intro h
    rw [h] at h1
    have hxy := h1.symm.trans h2
    simp [intSchema] at hxy
  · simp [mergeSchemas, normalizeTypes, dedupFirst, storeTypes,
      objPropXSchema, objPropYSchema, JsonSchema.type]
  · intro h
    rw [h] at h4a
    have hxy := h4a.symm.trans h4b
    simp [intSchema] at hxy
